import Mathlib

/-!
Verification of the path-resolution / traversal / type-coercion engine of the
`reflect` repository (`src/include/reflection/core.hpp`).

The C++ engine is templated over arbitrary aggregate record types.  The
shallow embedding works over an explicit universe `Ty` of static field types
(64-bit signed integers, doubles as rationals, bools, strings, registered
`std::chrono::duration` types, registered enums, `std::vector` sequences and
nested aggregate records) together with a value universe `Val`; the engine's
template dispatch on `T` becomes a match on the `Ty` component.  `nlohmann::json`
becomes the inductive `Json` (numbers carried as rationals: every concrete
number in the claims is exactly representable in `double`, and no claim
depends on binary floating-point rounding).  C++ functions that communicate
failure by exception are embedded as `Option`-valued functions; each
`field = expr` assignment in the source fully evaluates `expr` before the
assignment, so an exception inside `expr` leaves the field untouched, which
the embedding renders by returning the old value on `none`.

Machine-integer details that the claims depend on are kept: `std::stoll`,
`std::stoi` and `std::stoull` parse an optional-whitespace / optional-sign /
digit-run prefix of the string and fail (throw) when no digits are present or
when the value overflows the 64-bit (resp. 32-bit) range, with `stoull`
reducing modulo 2^64.  Narrower field widths (e.g. `int8_t` fields) are not
modelled; no claim depends on them.
-/

namespace Reflect

/-- The six characters accepted by C `isspace` in the default locale. -/
def isCSpace (c : Char) : Bool :=
  c = ' ' || c = '\t' || c = '\n' || c = '\x0b' || c = '\x0c' || c = '\r'

/-- ASCII decimal digit test (C `isdigit` in the default locale). -/
def isCDigit (c : Char) : Bool :=
  '0' ≤ c && c ≤ '9'

/-- C `tolower` in the default locale: lowercases `A`-`Z` only. -/
def lowerChar (c : Char) : Char :=
  if 'A' ≤ c && c ≤ 'Z' then Char.ofNat (c.toNat + 32) else c

/-- `std::transform(..., ::tolower)` over a `std::string`. -/
def lowerStr (s : String) : String :=
  String.mk (s.toList.map lowerChar)

/-- Numeric value of a digit run (most significant first). -/
def digitsToNat : List Char → Nat → Nat
  | [], acc => acc
  | c :: cs, acc => digitsToNat cs (acc * 10 + (c.toNat - 48))

/-- Read an optional single `+`/`-` sign; returns the sign as `±1` and the rest. -/
def readSign : List Char → Int × List Char
  | [] => (1, [])
  | c :: cs =>
    if c = '+' then (1, cs)
    else if c = '-' then (-1, cs)
    else (1, c :: cs)

/-- Common core of the `strtol` family: skip C whitespace, read an optional
sign and then a base-10 digit run, ignoring anything after the run.  Returns
`none` when the run is empty (C++ `std::invalid_argument`), otherwise the
(unbounded) signed value together with the sign and the digit run. -/
def strtolCore (cs : List Char) : Option (Int × List Char) :=
  let cs1 := cs.dropWhile isCSpace
  let (sgn, cs2) := readSign cs1
  let ds := cs2.takeWhile isCDigit
  if ds.isEmpty then none
  else some (sgn * (digitsToNat ds 0 : Int), ds)

/-- `std::stoll` (base 10): `none` models both `std::invalid_argument` (no
digits) and `std::out_of_range` (outside `[-2^63, 2^63-1]`). -/
def stoll (s : String) : Option Int :=
  match strtolCore s.toList with
  | none => none
  | some (v, _) => if v < -(2 ^ 63 : Int) || (2 ^ 63 : Int) - 1 < v then none else some v

/-- `std::stoi` (base 10), with the 32-bit `int` range. -/
def stoi (s : String) : Option Int :=
  match strtolCore s.toList with
  | none => none
  | some (v, _) => if v < -(2 ^ 31 : Int) || (2 ^ 31 : Int) - 1 < v then none else some v

/-- `std::stoull` (base 10): fails when there is no digit run or the run's
magnitude exceeds `2^64-1`; a leading `-` wraps modulo `2^64` (C `strtoull`
negates the converted value in the return type). -/
def stoull (s : String) : Option Nat :=
  let cs1 := s.toList.dropWhile isCSpace
  let (sgn, cs2) := readSign cs1
  let ds := cs2.takeWhile isCDigit
  if ds.isEmpty then none
  else
    let v := digitsToNat ds 0
    if 2 ^ 64 - 1 < v then none
    else if sgn = -1 then some ((2 ^ 64 - v) % 2 ^ 64) else some v

/-- `std::stod` on the decimal forms that reach it in this code base: optional
C whitespace, optional sign, integer digits, optional `.` plus fraction
digits (at least one digit overall required), optional `e`/`E` exponent with
optional sign (consumed only when followed by a digit).  The value
`±(intdigits.fracdigits)·10^expo` is assembled as one exact rational via
`mkRat`.  Hexadecimal, `inf` and `nan` forms, double rounding and the
floating-point range are not modelled; no claim exercises them. -/
def stod (s : String) : Option ℚ :=
  let cs1 := s.toList.dropWhile isCSpace
  let (sgn, cs2) := readSign cs1
  let ds := cs2.takeWhile isCDigit
  let cs3 := cs2.drop ds.length
  let (fs, cs4) :=
    match cs3 with
    | '.' :: rest => (rest.takeWhile isCDigit, rest.drop (rest.takeWhile isCDigit).length)
    | _ => ([], cs3)
  if ds.isEmpty && fs.isEmpty then none
  else
    let expo : Int :=
      match cs4 with
      | 'e' :: rest =>
        let (esgn, rest2) := readSign rest
        let es := rest2.takeWhile isCDigit
        if es.isEmpty then 0 else esgn * (digitsToNat es 0 : Int)
      | 'E' :: rest =>
        let (esgn, rest2) := readSign rest
        let es := rest2.takeWhile isCDigit
        if es.isEmpty then 0 else esgn * (digitsToNat es 0 : Int)
      | _ => 0
    some (mkRat (sgn * (digitsToNat (ds ++ fs) 0 : Int) * ((10 : Nat) ^ expo.toNat : Nat))
      ((10 : Nat) ^ fs.length * (10 : Nat) ^ (-expo).toNat))

/-- `static_cast<long long>` applied to a floating value: truncation toward
zero. -/
def ratTrunc (q : ℚ) : Int :=
  (if q.num < 0 then -1 else 1) * ((q.num.natAbs / q.den : Nat) : Int)

-- =========================================================================
-- PATH NAVIGATION TYPES (core.hpp lines 223-248)
-- =========================================================================

/-- `reflection::PathPart`: the source struct stores a `field_name` string and
an `optional<size_t>` index, but its two constructors only ever produce the
two shapes below (`is_field_access` / `is_array_access`). -/
inductive PathPart where
  | field (name : String)
  | index (i : Nat)
deriving DecidableEq, Repr

-- =========================================================================
-- PATH PARSING (core.hpp lines 254-340)
-- =========================================================================

/-- Mutable state of the character loop in `parse_path_enhanced`. -/
structure PPState where
  parts : List PathPart
  currentField : String
  inBrackets : Bool
  indexStr : String
deriving Repr

/-- One iteration of the `for (char c : path)` loop of `parse_path_enhanced`
(core.hpp lines 272-313). -/
def ppStep (st : PPState) (c : Char) : PPState :=
  if c = '[' then
    -- start of array index: flush any pending field name
    { parts := if st.currentField ≠ "" then st.parts ++ [.field st.currentField] else st.parts
      currentField := ""
      inBrackets := true
      indexStr := "" }
  else if c = ']' then
    -- end of array index: `std::stoull` the bracket text; on exception the
    -- index is silently dropped (the field name was already added at `[`)
    { parts :=
        if st.inBrackets && st.indexStr ≠ "" then
          match stoull st.indexStr with
          | some i => st.parts ++ [.index i]
          | none => st.parts
        else st.parts
      currentField := st.currentField
      inBrackets := false
      indexStr := "" }
  else if c = '.' then
    if !st.inBrackets then
      { parts := if st.currentField ≠ "" then st.parts ++ [.field st.currentField] else st.parts
        currentField := ""
        inBrackets := st.inBrackets
        indexStr := st.indexStr }
    else
      -- dots inside brackets are part of the index string
      { st with indexStr := st.indexStr.push c }
  else
    if st.inBrackets then { st with indexStr := st.indexStr.push c }
    else { st with currentField := st.currentField.push c }

/-- The post-loop flush of `parse_path_enhanced` (core.hpp lines 315-318):
append the final pending field name, if any. -/
def ppFinish (st : PPState) : List PathPart :=
  if st.currentField ≠ "" then st.parts ++ [.field st.currentField] else st.parts

/-- `reflection::parse_path_enhanced` (core.hpp lines 264-321). -/
def parse_path_enhanced (path : String) : List PathPart :=
  if path.isEmpty then []
  else ppFinish (path.toList.foldl ppStep ⟨[], "", false, ""⟩)

/-- Split a character list at every `.`, the accumulator holding the current
piece reversed.  Together with the nonempty filter below this is exactly the
`while (std::getline(ss, part, '.'))` loop of `parse_path`: `getline`
produces the pieces between dots (no piece after a trailing dot, which the
filter makes indistinguishable from producing an empty one). -/
def splitDots : List Char → List Char → List String
  | [], cur => [String.mk cur.reverse]
  | c :: cs, cur =>
    if c = '.' then String.mk cur.reverse :: splitDots cs []
    else splitDots cs (c :: cur)

/-- `reflection::parse_path` (core.hpp lines 328-340): `std::getline` on `.`,
keeping only nonempty pieces. -/
def parse_path (path : String) : List String :=
  if path.isEmpty then []
  else (splitDots path.toList []).filter (· ≠ "")

-- =========================================================================
-- THE STATIC TYPE UNIVERSE AND VALUES
-- =========================================================================

/-- The `Period` of a registered `std::chrono::duration` type.  The source
special-cases exactly `ratio<1>`, `ratio<60>`, `ratio<3600>` and `milli` in
`custom_converter<duration>::to_string`; these are the periods the claims
use.  The `rep` is modelled as a 64-bit-style signed integer (unbounded
here; no claim exercises rep overflow). -/
inductive DurUnit where
  | secs
  | mins
  | hours
  | millis
deriving DecidableEq, Repr

/-- Numerator of the `Period` ratio (seconds per tick as
`scaleNum / scaleDen`), kept as separate integers so duration conversions
stay in kernel-reducible integer arithmetic. -/
def DurUnit.scaleNum : DurUnit → Nat
  | .secs => 1
  | .mins => 60
  | .hours => 3600
  | .millis => 1

/-- Denominator of the `Period` ratio. -/
def DurUnit.scaleDen : DurUnit → Nat
  | .millis => 1000
  | _ => 1

/-- An enum registered with `REGISTER_ENUM`: the `std::map<Enum, std::string>`
built from the macro's initializer list, i.e. an association list ordered by
the (int-underlying) enum code.  Iteration in `from_string`/`to_string`
follows this order. -/
def EnumMap : Type := List (Int × String)

/-- Static field types the engine dispatches on.  `int` stands for the
integral arithmetic types (modelled at `long long` width where width
matters), `float` for the floating types, `vec` for `std::vector`, `agg` for
an aggregate struct with its PFR field names in declaration order. -/
inductive Ty where
  | int
  | float
  | bool
  | str
  | dur (u : DurUnit)
  | enum (m : List (Int × String))
  | vec (elem : Ty)
  | agg (fields : List (String × Ty))

/-- Runtime values of the static types. -/
inductive Val where
  | int (i : Int)
  | float (q : ℚ)
  | bool (b : Bool)
  | str (s : String)
  | dur (count : Int)
  | enum (code : Int)
  | vec (elems : List Val)
  | agg (fields : List Val)

/-- The `nlohmann::json` tagged union.  Numbers are carried as rationals
(exact for every number any claim uses); objects keep their key/value list
(nlohmann stores object keys sorted, but no claim inspects key order and all
object lookups in the engine are by key). -/
inductive Json where
  | null
  | bool (b : Bool)
  | num (q : ℚ)
  | str (s : String)
  | arr (elems : List Json)
  | obj (fields : List (String × Json))

mutual

/-- Value initialization `T{}` for each static type (used by
`deserialize_field_stub`'s default-constructible fallback). -/
def defaultVal : Ty → Val
  | .int => .int 0
  | .float => .float 0
  | .bool => .bool false
  | .str => .str ""
  | .dur _ => .dur 0
  | .enum _ => .enum 0
  | .vec _ => .vec []
  | .agg fs => .agg (defaultVals fs)

/-- Value initialization of a field list, in declaration order. -/
def defaultVals : List (String × Ty) → List Val
  | [] => []
  | (_, t) :: fs => defaultVal t :: defaultVals fs

end

-- =========================================================================
-- CUSTOM CONVERTER SYSTEM (core.hpp lines 19-167)
-- =========================================================================

/-- The case-insensitive name-matching loop of `REGISTER_ENUM`'s
`from_string` (core.hpp lines 56-60): walk the map in its (code-ordered)
iteration order and return the first enum value whose lowered canonical name
equals the lowered input. -/
def enumFindLoop : List (Int × String) → String → Option Int
  | [], _ => none
  | (code, name) :: rest, strLower =>
    if lowerStr name = strLower then some code else enumFindLoop rest strLower

/-- `custom_converter<Enum>::from_string` generated by `REGISTER_ENUM`
(core.hpp lines 44-69): case-insensitive canonical-name match, else
`std::stoi` and `static_cast<EnumType>`; both failures throw (`none`). -/
def enumFromString (m : EnumMap) (s : String) : Option Int :=
  match enumFindLoop m (lowerStr s) with
  | some code => some code
  | none => stoi s

/-- `custom_converter<Enum>::to_string` (core.hpp lines 35-42):
`std::map::find` on the code, else `std::to_string` of the code. -/
def enumToString (m : EnumMap) (code : Int) : String :=
  match m.find? (fun p => p.1 = code) with
  | some p => p.2
  | none => toString code

/-- `custom_converter<duration>::to_string` (core.hpp lines 77-92): the count
followed by the suffix special-cased for the four modelled periods. -/
def durToString (u : DurUnit) (count : Int) : String :=
  toString count ++
    (match u with
     | .secs => "s"
     | .mins => "m"
     | .hours => "h"
     | .millis => "ms")

/-- `str.erase(0, find_first_not_of(ws)); str.erase(find_last_not_of(ws)+1)`:
strip the given characters from both ends. -/
def trimBoth (ws : List Char) (s : String) : String :=
  String.mk (((s.toList.dropWhile (ws.contains ·)).reverse.dropWhile (ws.contains ·)).reverse)

/-- The character class of `from_string`'s numeric scan (core.hpp lines
109-110 and 123): digits, `.`, `-`, `+`. -/
def durNumChar (c : Char) : Bool :=
  isCDigit c || c = '.' || c = '-' || c = '+'

/-- `std::chrono::duration_cast` from `duration<double, srcNum/srcDen>` to
the target unit with integral rep: multiply through exactly
(`q · (srcNum/srcDen) / (scaleNum/scaleDen)`) and truncate toward zero
(`static_cast<Rep>` of the double intermediate). -/
def durCast (q : ℚ) (srcNum srcDen : Nat) (u : DurUnit) : Int :=
  ratTrunc (mkRat (q.num * (srcNum : Int) * (u.scaleDen : Int))
    (q.den * srcDen * u.scaleNum))

/-- `custom_converter<duration>::from_string` (core.hpp lines 94-166):
trim `" \t\r\n"`; a string made only of numeric characters is `stod`-parsed
and taken directly in the target's own unit; otherwise split at the first
non-numeric character into a `stod`-parsed count and a `" \t"`-trimmed unit
suffix, converting `{s,sec,seconds, m,min,minutes, h,hour,hours, d,day,days,
ms,milliseconds}` through a double intermediate; an empty suffix again means
the target's own unit; anything else throws (`none`). -/
def durFromString (u : DurUnit) (s : String) : Option Int :=
  if s = "" then none
  else
    let t := trimBoth [' ', '\t', '\r', '\n'] s
    if t = "" then none
    else if t.toList.all durNumChar then
      (stod t).map ratTrunc
    else
      let ds := t.toList.takeWhile durNumChar
      if ds.isEmpty then none
      else
        let unitPart := trimBoth [' ', '\t'] (String.mk (t.toList.drop ds.length))
        match stod (String.mk ds) with
        | none => none
        | some q =>
          if unitPart = "s" || unitPart = "sec" || unitPart = "seconds" then
            some (durCast q 1 1 u)
          else if unitPart = "m" || unitPart = "min" || unitPart = "minutes" then
            some (durCast q 60 1 u)
          else if unitPart = "h" || unitPart = "hour" || unitPart = "hours" then
            some (durCast q 3600 1 u)
          else if unitPart = "d" || unitPart = "day" || unitPart = "days" then
            some (durCast q 86400 1 u)
          else if unitPart = "ms" || unitPart = "milliseconds" then
            some (durCast q 1 1000 u)
          else if unitPart = "" then
            some (ratTrunc q)
          else none

-- =========================================================================
-- nlohmann::json dump (used by try_set_field's string branch)
-- =========================================================================

/-- Two lowercase hex digits of a byte below 0x20. -/
def hexDigit (n : Nat) : Char :=
  if n < 10 then Char.ofNat (48 + n) else Char.ofNat (87 + n)

/-- `nlohmann::json::dump` escaping of one string character. -/
def dumpEsc (c : Char) : String :=
  if c = '"' then "\\\""
  else if c = '\\' then "\\\\"
  else if c = '\x08' then "\\b"
  else if c = '\x0c' then "\\f"
  else if c = '\n' then "\\n"
  else if c = '\r' then "\\r"
  else if c = '\t' then "\\t"
  else if c.toNat < 32 then
    String.mk ['\\', 'u', '0', '0', hexDigit (c.toNat / 16), hexDigit (c.toNat % 16)]
  else String.singleton c

/-- Render a JSON number.  Integers print exactly as nlohmann prints its
integer type; non-integral doubles use shortest-round-trip formatting in
nlohmann, which is not modelled bit-for-bit (no claim inspects it) — the
rational is printed in fraction form as a placeholder. -/
def dumpNum (q : ℚ) : String :=
  if q.den = 1 then toString q.num else toString q.num ++ "/" ++ toString q.den

mutual

/-- `nlohmann::json::dump()` (compact form, no indentation). -/
def dump : Json → String
  | .null => "null"
  | .bool true => "true"
  | .bool false => "false"
  | .num q => dumpNum q
  | .str s => "\"" ++ String.join (s.toList.map dumpEsc) ++ "\""
  | .arr xs => "[" ++ dumpList xs ++ "]"
  | .obj fs => "\x7b" ++ dumpObj fs ++ "\x7d"

/-- Comma-separated dump of array elements. -/
def dumpList : List Json → String
  | [] => ""
  | [x] => dump x
  | x :: y :: xs => dump x ++ "," ++ dumpList (y :: xs)

/-- Comma-separated dump of object members. -/
def dumpObj : List (String × Json) → String
  | [] => ""
  | [(n, x)] => "\"" ++ n ++ "\":" ++ dump x
  | (n, x) :: y :: fs => "\"" ++ n ++ "\":" ++ dump x ++ "," ++ dumpObj (y :: fs)

end

-- =========================================================================
-- SERIALIZATION STUBS (core.hpp lines 847-942)
-- =========================================================================

mutual

/-- `detail::serialize_field_stub` (core.hpp lines 848-901): arithmetic and
string fields natively; custom-converter fields through `to_string`; vectors
element-wise; nonempty aggregates as an object keyed by the PFR field names
in declaration order; an empty aggregate falls to the `json(nullptr)`
fallback.  The final catch-all is the ill-typed case (a value that does not
inhabit the static type), which cannot arise from the engine. -/
def serialize_field_stub : Ty → Val → Json
  | .int, .int i => .num i
  | .float, .float q => .num q
  | .bool, .bool b => .bool b
  | .str, .str s => .str s
  | .dur u, .dur c => .str (durToString u c)
  | .enum m, .enum c => .str (enumToString m c)
  | .vec et, .vec xs => .arr (xs.map (serialize_field_stub et))
  | .agg fs, .agg vs => if fs.isEmpty then .null else .obj (serializeFields fs vs)
  | _, _ => .null

/-- The `boost::pfr::for_each_field` loop of `serialize_field_stub`'s
aggregate branch, pairing each declared field with its serialized value. -/
def serializeFields : List (String × Ty) → List Val → List (String × Json)
  | [], _ => []
  | _ :: _, [] => []
  | (n, ft) :: fs, v :: vs => (n, serialize_field_stub ft v) :: serializeFields fs vs

end

/-- `detail::to_json_stub` (core.hpp lines 939-942). -/
def to_json_stub (t : Ty) (v : Val) : Json :=
  serialize_field_stub t v

/-- `detail::deserialize_field_stub` (core.hpp lines 903-937).  Arithmetic
and string targets use `j.get<T>()`, which throws unless `j` holds the
matching JSON kind; custom-converter targets parse strings via `from_string`
and reinterpret numbers (enum codes, or duration counts in the target's own
unit); every other case — including vectors and aggregates, for which this
stub has no real implementation — falls through to the default-constructible
fallback `return T{};`. -/
def deserialize_field_stub (t : Ty) (j : Json) : Option Val :=
  match t with
  | .int =>
    -- `j.get<long long>()`: nlohmann's arithmetic from_json also accepts booleans
    match j with
    | .num q => some (.int (ratTrunc q))
    | .bool b => some (.int (if b then 1 else 0))
    | _ => none
  | .float =>
    match j with
    | .num q => some (.float q)
    | .bool b => some (.float (if b then 1 else 0))
    | _ => none
  | .bool =>
    match j with
    | .bool b => some (.bool b)
    | _ => none
  | .str =>
    match j with
    | .str s => some (.str s)
    | _ => none
  | .dur u =>
    match j with
    | .str s => (durFromString u s).map .dur
    | .num q => some (.dur (ratTrunc q))
    | _ => some (defaultVal (.dur u))
  | .enum m =>
    match j with
    | .str s => (enumFromString m s).map .enum
    | .num q => some (.enum (ratTrunc q))
    | _ => some (defaultVal (.enum m))
  | .vec et => some (defaultVal (.vec et))
  | .agg fs => some (defaultVal (.agg fs))

-- =========================================================================
-- FIELD INDEX RESOLUTION (core.hpp lines 346-376)
-- =========================================================================

/-- `reflection::get_field_index<T>` (core.hpp lines 347-376): the `for`
loop over `boost::pfr::names_as_array<T>()`, returning the first index whose
PFR field name equals the requested name, else `nullopt`.  (The non-C++20
fallback over custom/`field_<i>` names is dead code under the
`has_pfr_names` check, which is always true in C++20.) -/
def get_field_index (names : List String) (fieldName : String) : Option Nat :=
  match names with
  | [] => none
  | n :: rest =>
    if n = fieldName then some 0 else (get_field_index rest fieldName).map (· + 1)

/-- The declared PFR field names of an aggregate's field list. -/
def fieldNames (fs : List (String × Ty)) : List String :=
  fs.map Prod.fst

-- =========================================================================
-- TYPE COERCION (core.hpp lines 393-490, try_set_field)
-- =========================================================================

/-- `reflection::try_set_field<T>` (core.hpp lines 394-490).  The result pair
is (returned bool, field value after the call).  Every assignment in the
source fully evaluates its right-hand side before writing the field, and all
parse failures throw from inside that right-hand side and are caught by the
enclosing `try`, so a `false` return is always paired with the old value by
the structure of the source.  Branch order follows the source: the
custom-converter block first (strings through `from_string`, numbers
reinterpreted as enum codes / duration counts in the target's own unit),
then string, bool, arithmetic, vector and aggregate targets, and a final
last-resort `deserialize_field_stub` assignment for the remaining types
(which is where custom-converter targets land when the value is neither
string nor number: the stub default-constructs and the call reports
success). -/
def try_set_field : Ty → Val → Json → Bool × Val
  | .dur u, old, j =>
    match j with
    | .str s =>
      match durFromString u s with
      | some c => (true, .dur c)
      | none => (false, old)
    | .num q => (true, .dur (ratTrunc q))
    | other =>
      match deserialize_field_stub (.dur u) other with
      | some v => (true, v)
      | none => (false, old)
  | .enum m, old, j =>
    match j with
    | .str s =>
      match enumFromString m s with
      | some c => (true, .enum c)
      | none => (false, old)
    | .num q => (true, .enum (ratTrunc q))
    | other =>
      match deserialize_field_stub (.enum m) other with
      | some v => (true, v)
      | none => (false, old)
  | .str, _, j =>
    match j with
    | .str s => (true, .str s)
    | other => (true, .str (dump other))
  | .bool, old, j =>
    match j with
    | .bool b => (true, .bool b)
    | .str s =>
      let sl := lowerStr s
      if sl = "true" || sl = "1" || sl = "yes" then (true, .bool true)
      else if sl = "false" || sl = "0" || sl = "no" then (true, .bool false)
      else (false, old)
    | .num q => (true, .bool (decide (ratTrunc q ≠ 0)))
    | _ => (false, old)
  | .int, old, j =>
    match j with
    | .num q => (true, .int (ratTrunc q))
    | .str s =>
      match stoll s with
      | some n => (true, .int n)
      | none => (false, old)
    | _ => (false, old)
  | .float, old, j =>
    match j with
    | .num q => (true, .float q)
    | .str s =>
      match stod s with
      | some q => (true, .float q)
      | none => (false, old)
    | _ => (false, old)
  | .vec et, old, j =>
    match j with
    | .arr xs =>
      match deserialize_field_stub (.vec et) (.arr xs) with
      | some v => (true, v)
      | none => (false, old)
    | _ => (false, old)
  | .agg fs, old, j =>
    match j with
    | .obj kvs =>
      match deserialize_field_stub (.agg fs) (.obj kvs) with
      | some v => (true, v)
      | none => (false, old)
    | _ => (false, old)

-- =========================================================================
-- ENHANCED ARRAY-AWARE RECURSIVE ENGINE (core.hpp lines 565-739)
-- =========================================================================

/-- Base case of `get_field_enhanced_recursive` (core.hpp lines 589-602):
vectors through `serialize_field_stub`, aggregates through `to_json_stub`,
custom-converter types through `to_string`, primitives natively. -/
def serializeCurrent (t : Ty) (v : Val) : Json :=
  match t, v with
  | .vec et, xs => serialize_field_stub (.vec et) xs
  | .agg fs, vs => to_json_stub (.agg fs) vs
  | .dur u, .dur c => .str (durToString u c)
  | .enum m, .enum c => .str (enumToString m c)
  | .int, .int i => .num i
  | .float, .float q => .num q
  | .bool, .bool b => .bool b
  | .str, .str s => .str s
  | _, _ => .null

/-- Leaf serialization of an indexed element inside `get_array_element`
(core.hpp lines 677-690): aggregates through `to_json_stub`,
custom-converter types through `to_string`, everything else through the
`nlohmann::json` constructor (which builds the same array for the vector
elements representable in this universe). -/
def serializeElement (t : Ty) (v : Val) : Json :=
  match t, v with
  | .agg fs, vs => to_json_stub (.agg fs) vs
  | .dur u, .dur c => .str (durToString u c)
  | .enum m, .enum c => .str (enumToString m c)
  | .int, .int i => .num i
  | .float, .float q => .num q
  | .bool, .bool b => .bool b
  | .str, .str s => .str s
  | .vec et, xs => serialize_field_stub (.vec et) xs
  | _, _ => .null

/-- `detail::get_field_enhanced_recursive` (core.hpp lines 587-627), with the
bodies of `get_array_element` (lines 667-698) and
`get_field_enhanced_at_index` (lines 724-729) inlined at their call sites so
that the mutual recursion of the source becomes a single structural
recursion on the remaining path (`depth` in the source is represented by the
remaining suffix of `path_parts`).  The standalone definitions below restate
those two helpers exactly as in the source and are proved equal to the
inlined branches. -/
def get_field_enhanced_recursive : Ty → Val → List PathPart → Option Json
  | t, v, [] => some (serializeCurrent t v)
  | t, v, .index i :: rest =>
    -- get_array_element(obj, i, path_parts, depth + 1)
    match t, v with
    | .vec et, .vec xs =>
      match xs[i]? with
      | none => none
      | some x =>
        match rest with
        | [] => some (serializeElement et x)
        | _ :: _ => get_field_enhanced_recursive et x rest
    | _, _ => none
  | t, v, .field name :: rest =>
    match t, v with
    | .agg fs, .agg vs =>
      match get_field_index (fieldNames fs) name with
      | none => none
      | some idx =>
        -- get_field_enhanced_at_index(obj, idx, path_parts, depth + 1)
        match fs[idx]?, vs[idx]? with
        | some (_, ft), some fv => get_field_enhanced_recursive ft fv rest
        | _, _ => none
    | _, _ => none

/-- `detail::set_field_at_index_enhanced` (core.hpp lines 731-734): run
`try_set_field` on field `idx` in place; an out-of-range index leaves the
fold's result false with nothing touched. -/
def set_field_at_index_enhanced (fs : List (String × Ty)) (vs : List Val) (idx : Nat)
    (j : Json) : Bool × List Val :=
  match fs[idx]?, vs[idx]? with
  | some (_, ft), some fv =>
    let r := try_set_field ft fv j
    (r.1, vs.set idx r.2)
  | _, _ => (false, vs)

/-- `detail::set_field_enhanced_recursive` (core.hpp lines 630-664), with the
bodies of `set_array_element` (lines 701-721) and
`set_field_at_index_enhanced_recursive` (lines 736-739) inlined at their
call sites (single structural recursion on the remaining path, as for the
getter).  The value component of the result is the record state after the
call: the C++ mutates `obj` through references, and the only writes are the
`try_set_field` assignments at the terminal segment. -/
def set_field_enhanced_recursive : Ty → Val → List PathPart → Json → Bool × Val
  | _, v, [], _ => (false, v)
  | t, v, .index i :: rest, j =>
    -- set_array_element(obj, i, path_parts, value, depth + 1)
    match t, v with
    | .vec et, .vec xs =>
      match xs[i]? with
      | none => (false, .vec xs)
      | some x =>
        match rest with
        | [] =>
          let r := try_set_field et x j
          (r.1, .vec (xs.set i r.2))
        | _ :: _ =>
          let r := set_field_enhanced_recursive et x rest j
          (r.1, .vec (xs.set i r.2))
    | _, _ => (false, v)
  | t, v, .field name :: rest, j =>
    match t, v with
    | .agg fs, .agg vs =>
      match get_field_index (fieldNames fs) name with
      | none => (false, .agg vs)
      | some idx =>
        match rest with
        | [] =>
          let r := set_field_at_index_enhanced fs vs idx j
          (r.1, .agg r.2)
        | _ :: _ =>
          -- set_field_at_index_enhanced_recursive(obj, idx, path_parts, value, depth + 1)
          match fs[idx]?, vs[idx]? with
          | some (_, ft), some fv =>
            let r := set_field_enhanced_recursive ft fv rest j
            (r.1, .agg (vs.set idx r.2))
          | _, _ => (false, .agg vs)
    | _, _ => (false, v)

/-- `detail::get_array_element` (core.hpp lines 667-698) as in the source:
bounds-checked element access, leaf serialization when the path is
exhausted, otherwise navigation into the element. -/
def get_array_element (t : Ty) (v : Val) (i : Nat) (rest : List PathPart) : Option Json :=
  match t, v with
  | .vec et, .vec xs =>
    match xs[i]? with
    | none => none
    | some x =>
      match rest with
      | [] => some (serializeElement et x)
      | _ :: _ => get_field_enhanced_recursive et x rest
  | _, _ => none

/-- `detail::set_array_element` (core.hpp lines 701-721) as in the source. -/
def set_array_element (t : Ty) (v : Val) (i : Nat) (rest : List PathPart) (j : Json) :
    Bool × Val :=
  match t, v with
  | .vec et, .vec xs =>
    match xs[i]? with
    | none => (false, .vec xs)
    | some x =>
      match rest with
      | [] =>
        let r := try_set_field et x j
        (r.1, .vec (xs.set i r.2))
      | _ :: _ =>
        let r := set_field_enhanced_recursive et x rest j
        (r.1, .vec (xs.set i r.2))
  | _, _ => (false, v)

/-- The getter's index branch is `get_array_element`, as in the source. -/
theorem get_field_enhanced_recursive_index (t : Ty) (v : Val) (i : Nat)
    (rest : List PathPart) :
    get_field_enhanced_recursive t v (.index i :: rest) = get_array_element t v i rest :=
  rfl

/-- The setter's index branch is `set_array_element`, as in the source. -/
theorem set_field_enhanced_recursive_index (t : Ty) (v : Val) (i : Nat)
    (rest : List PathPart) (j : Json) :
    set_field_enhanced_recursive t v (.index i :: rest) j = set_array_element t v i rest j :=
  rfl

-- =========================================================================
-- PUBLIC API (core.hpp lines 950-1053)
-- =========================================================================

/-- `reflection::get_field_enhanced` (core.hpp lines 957-965). -/
def get_field_enhanced (t : Ty) (v : Val) (path : String) : Option Json :=
  let parts := parse_path_enhanced path
  if parts.isEmpty then none
  else get_field_enhanced_recursive t v parts

/-- `reflection::set_field_enhanced` (core.hpp lines 975-983); the value
component is the record state after the call. -/
def set_field_enhanced (t : Ty) (v : Val) (path : String) (j : Json) : Bool × Val :=
  let parts := parse_path_enhanced path
  if parts.isEmpty then (false, v)
  else set_field_enhanced_recursive t v parts j

/-- `reflection::validate_path_recursive` (core.hpp lines 497-514) with
`validate_path_at_index` (lines 516-519) inlined: all segments consumed is
success; otherwise the current type must be a navigable aggregate and the
segment must resolve to a field, into whose type validation recurses. -/
def validate_path_recursive : Ty → List String → Bool
  | _, [] => true
  | .agg fs, name :: rest =>
    match get_field_index (fieldNames fs) name with
    | none => false
    | some idx =>
      match fs[idx]? with
      | some (_, ft) => validate_path_recursive ft rest
      | none => false
  | _, _ => false

/-- `reflection::validate_path_at_index` (core.hpp lines 516-519) as in the
source: recurse into the field type at the target index (an out-of-range
index leaves the fold false). -/
def validate_path_at_index (fs : List (String × Ty)) (idx : Nat) (rest : List String) : Bool :=
  match fs[idx]? with
  | some (_, ft) => validate_path_recursive ft rest
  | none => false

/-- `reflection::is_valid_path` (core.hpp lines 1030-1039): dot-notation
parse, empty is invalid, then `validate_path_recursive`. -/
def is_valid_path (t : Ty) (path : String) : Bool :=
  let parts := parse_path path
  if parts.isEmpty then false else validate_path_recursive t parts

mutual

/-- `reflection::collect_all_paths` (core.hpp lines 554-562): nothing for
non-aggregates, otherwise the fold of `collect_path_for_field` over the
fields in declaration order. -/
def collect_all_paths : Ty → String → List String
  | .agg fs, pre => collectFieldsLoop fs pre
  | _, _ => []

/-- The `(collect_path_for_field<T, I>(paths, prefix), ...)` fold (core.hpp
lines 526-552 and 558-560): for each field, push `prefix.name` and, when the
field's type is itself an aggregate, recurse into it before moving to the
next field (depth-first, declaration order). -/
def collectFieldsLoop : List (String × Ty) → String → List String
  | [], _ => []
  | (n, ft) :: fs, pre =>
    let fullPath := if pre = "" then n else pre ++ "." ++ n
    (fullPath ::
      (match ft with
       | .agg _ => collect_all_paths ft fullPath
       | _ => [])) ++ collectFieldsLoop fs pre

end

/-- `reflection::get_all_paths` (core.hpp lines 1047-1053). -/
def get_all_paths (t : Ty) (pre : String := "") : List String :=
  collect_all_paths t pre

-- =========================================================================
-- SPEC-SIDE DEFINITIONS (written from the specification's wording, for
-- comparison with the source-derived definitions above)
-- =========================================================================

/-- Spec-side restatement of the symbolic string parse (spec §4.5): the first
registry entry whose canonical name matches case-insensitively; on no match,
the string parsed as an integer and reinterpreted as the underlying code. -/
def specEnumParse (m : EnumMap) (s : String) : Option Int :=
  match m.find? (fun p => lowerStr p.2 = lowerStr s) with
  | some p => some p.1
  | none => stoi s

/-- Spec-side simulated resolution under the Reader's segment-kind rules
(claim C4's wording, spec §4.6/§4.3): with no value I/O, an index segment
resolves against a sequence-typed field (any index passes, since length is a
runtime property), a field-name segment resolves against an aggregate record
type, and exhausting the segments is success. -/
def readerSimValid : Ty → List PathPart → Bool
  | _, [] => true
  | .vec et, .index _ :: rest => readerSimValid et rest
  | .agg fs, .field n :: rest =>
    match fs.find? (fun p => p.1 = n) with
    | some p => readerSimValid p.2 rest
    | none => false
  | _, _ => false

/-- Spec-side dot-only resolution (amended claim C4): every segment,
including the last, resolves as a declared field name by first-match
association lookup through nested aggregate record types. -/
def dotSimValid : Ty → List String → Bool
  | _, [] => true
  | .agg fs, n :: rest =>
    match fs.find? (fun p => p.1 = n) with
    | some p => dotSimValid p.2 rest
    | none => false
  | _, _ => false

-- =========================================================================
-- DEMO TYPES USED BY THE CONCRETE CLAIMS
-- =========================================================================

/-- The enum registration of spec §8: `{A→"low", B→"medium", C→"high"}` with
underlying codes 1, 2, 3. -/
def demoEnum : EnumMap := [(1, "low"), (2, "medium"), (3, "high")]

/-- A record with a nested record field: `{pt : {x : long long}}`. -/
def outerPtTy : Ty := .agg [("pt", .agg [("x", .int)])]

/-- A record with a sequence field: `{v : std::vector<long long>}`. -/
def vecFieldTy : Ty := .agg [("v", .vec .int)]

/-- The `ItemList` shape of the repository's array-support tests:
`{items : std::vector<{name : std::string}>, description : std::string}`. -/
def itemListTy : Ty :=
  .agg [("items", .vec (.agg [("name", .str)])), ("description", .str)]

/-- The spec §8 path-discovery record
`{name, age, address{street, city, zip}, active}`. -/
def demoPersonTy : Ty :=
  .agg [("name", .str), ("age", .int),
    ("address", .agg [("street", .str), ("city", .str), ("zip", .str)]),
    ("active", .bool)]

-- =========================================================================
-- HELPER LEMMAS
-- =========================================================================

/-- Writing back the element already stored at an index leaves the list
unchanged. -/
theorem set_getElem?_self {α : Type} (xs : List α) (i : Nat) (x : α)
    (h : xs[i]? = some x) : xs.set i x = xs := by
  induction xs generalizing i with
  | nil => simp at h
  | cons a l ih =>
    cases i with
    | zero => simp at h; simp [h]
    | succ n =>
      simp only [List.getElem?_cons_succ] at h
      simp [ih n h]

/-- The name-matching loop of `REGISTER_ENUM`'s `from_string` returns the
code of the first entry found by `List.find?` with the same predicate. -/
theorem enumFindLoop_eq_find? (m : EnumMap) (sl : String) :
    enumFindLoop m sl = (m.find? (fun p => lowerStr p.2 = sl)).map Prod.fst := by
  induction m with
  | nil => rfl
  | cons p rest ih =>
    obtain ⟨code, name⟩ := p
    by_cases h : lowerStr name = sl
    · simp [enumFindLoop, List.find?, h]
    · simp [enumFindLoop, List.find?, h, ih]

/-- The enum `from_string` equals its spec-side restatement. -/
theorem enumFromString_eq_spec (m : EnumMap) (s : String) :
    enumFromString m s = specEnumParse m s := by
  unfold enumFromString specEnumParse
  rw [enumFindLoop_eq_find?]
  cases m.find? (fun p => lowerStr p.2 = lowerStr s) <;> rfl

/-- A failing `try_set_field` leaves the field at its old value: every
assignment in the source evaluates its right-hand side (where all parse
failures throw) before writing. -/
theorem try_set_field_false {t : Ty} {old : Val} {j : Json}
    (h : (try_set_field t old j).1 = false) : (try_set_field t old j).2 = old := by
  cases t <;> cases j <;>
    simp only [try_set_field, deserialize_field_stub] at h ⊢ <;>
    (repeat' split at h) <;> simp_all

/-- A failing terminal field assignment leaves the field list unchanged. -/
theorem set_field_at_index_enhanced_false (fs : List (String × Ty)) (vs : List Val)
    (idx : Nat) (j : Json) (h : (set_field_at_index_enhanced fs vs idx j).1 = false) :
    (set_field_at_index_enhanced fs vs idx j).2 = vs := by
  rcases hf : fs[idx]? with _ | ⟨n, ft⟩
  · simp [set_field_at_index_enhanced, hf]
  · rcases hv : vs[idx]? with _ | fv
    · simp [set_field_at_index_enhanced, hf, hv]
    · simp only [set_field_at_index_enhanced, hf, hv] at h ⊢
      rw [try_set_field_false h]
      exact set_getElem?_self vs idx fv hv

/-- A failing recursive set leaves the whole value unchanged: navigation is
read-only and the only write, the terminal `try_set_field`, is atomic. -/
theorem sfer_false_unchanged : ∀ (parts : List PathPart) (t : Ty) (v : Val) (j : Json),
    (set_field_enhanced_recursive t v parts j).1 = false →
    (set_field_enhanced_recursive t v parts j).2 = v := by
  intro parts
  induction parts with
  | nil => intro t v j _; rfl
  | cons p rest ih =>
    intro t v j h
    cases p with
    | index i =>
      cases t <;> cases v <;> (simp only [set_field_enhanced_recursive] at h ⊢; try rfl)
      rename_i et xs
      rcases hx : xs[i]? with _ | x
      · simp [hx]
      · cases rest with
        | nil =>
          simp only [hx] at h ⊢
          rw [try_set_field_false h, set_getElem?_self xs i x hx]
        | cons q qs =>
          simp only [hx] at h ⊢
          rw [ih _ _ _ h, set_getElem?_self xs i x hx]
    | field name =>
      cases t <;> cases v <;> (simp only [set_field_enhanced_recursive] at h ⊢; try rfl)
      rename_i fs vs
      rcases hi : get_field_index (fieldNames fs) name with _ | idx
      · simp [hi]
      · cases rest with
        | nil =>
          simp only [hi] at h ⊢
          rw [set_field_at_index_enhanced_false fs vs idx j h]
        | cons q qs =>
          simp only [hi] at h ⊢
          rcases hf : fs[idx]? with _ | ⟨n, ft⟩
          · simp [hf]
          · rcases hv : vs[idx]? with _ | fv
            · simp [hf, hv]
            · simp only [hf, hv] at h ⊢
              rw [ih _ _ _ h, set_getElem?_self vs idx fv hv]

-- =========================================================================
-- CLAIM THEOREMS
-- =========================================================================

/-- C1: if `set` returns false the record afterwards equals the record
before (no partial writes at any depth), and the terminal coercion step
itself either fully assigns the addressed field or leaves it untouched. -/
theorem C1_set_failure_leaves_record_unchanged :
    (∀ (t : Ty) (v : Val) (path : String) (j : Json),
      (set_field_enhanced t v path j).1 = false →
      (set_field_enhanced t v path j).2 = v) ∧
    (∀ (t : Ty) (old : Val) (j : Json),
      (try_set_field t old j).1 = false → (try_set_field t old j).2 = old) := by
  constructor
  · intro t v path j h
    unfold set_field_enhanced at h ⊢
    cases hp : (parse_path_enhanced path).isEmpty <;> simp only [hp] at h ⊢
    · exact sfer_false_unchanged _ _ _ _ h
    · rfl
  · intro t old j h
    exact try_set_field_false h

/-- Witness for C1 at a concrete input: setting a missing field fails and
leaves the record unchanged. -/
theorem C1_set_failure_leaves_record_unchanged_witness :
    (set_field_enhanced outerPtTy (.agg [.agg [.int 5]]) "nope" (.num 1)).2 =
      .agg [.agg [.int 5]] :=
  C1_set_failure_leaves_record_unchanged.1 outerPtTy (.agg [.agg [.int 5]]) "nope" (.num 1) rfl

/-- C2 fails on the code: `get` of a nested-record subtree `{x = 5}` yields
the object `{"x": 5}`, but `set` of that object into a default-constructed
record of the same type reports success while storing the
default-constructed subtree (`x = 0`), because `try_set_field` delegates
aggregate targets to `deserialize_field_stub`, whose only non-converter
behavior is `return T{};`.  The round trip therefore does not reproduce the
addressed subtree. -/
theorem C2_roundtrip_fails_on_nested_record :
    get_field_enhanced outerPtTy (.agg [.agg [.int 5]]) "pt" = some (.obj [("x", .num 5)]) ∧
    set_field_enhanced outerPtTy (defaultVal outerPtTy) "pt" (.obj [("x", .num 5)]) =
      (true, .agg [.agg [.int 0]]) ∧
    (Val.agg [.agg [.int 0]] ≠ Val.agg [.agg [.int 5]]) ∧
    (∀ (fs : List (String × Ty)) (old : Val) (kvs : List (String × Json)),
      try_set_field (.agg fs) old (.obj kvs) = (true, defaultVal (.agg fs))) := by
  refine ⟨rfl, rfl, ?_, fun fs old kvs => rfl⟩
  intro h
  simp at h

/-- C3 fails on the code: with a `std::vector<long long>` field, `set` of
the array `[1,2,3]` returns true but stores the empty vector (the
`deserialize_field_stub` the vector branch delegates to has no vector
implementation and default-constructs), and an array whose element cannot be
coerced also "succeeds" the same way instead of failing the call; only the
not-an-array precondition is enforced. -/
theorem C3_sequence_set_stores_default :
    set_field_enhanced vecFieldTy (.agg [.vec [.int 9]]) "v" (.arr [.num 1, .num 2, .num 3]) =
      (true, .agg [.vec []]) ∧
    set_field_enhanced vecFieldTy (.agg [.vec [.int 9]]) "v" (.arr [.str "zzz"]) =
      (true, .agg [.vec []]) ∧
    set_field_enhanced vecFieldTy (.agg [.vec [.int 9]]) "v" (.str "no") =
      (false, .agg [.vec [.int 9]]) ∧
    (∀ (et : Ty) (old : Val) (xs : List Json),
      try_set_field (.vec et) old (.arr xs) = (true, .vec [])) :=
  ⟨rfl, rfl, rfl, fun _ _ _ => rfl⟩

/-- C4 counterexample: `is_valid_path` rejects `items[0].name` although
simulated resolution under the Reader's segment-kind rules accepts it, and
the enhanced Reader itself resolves that path on a value of the type. -/
theorem C4_counterexample_index_path :
    is_valid_path itemListTy "items[0].name" = false ∧
    parse_path_enhanced "items[0].name" ≠ [] ∧
    readerSimValid itemListTy (parse_path_enhanced "items[0].name") = true ∧
    get_field_enhanced itemListTy (.agg [.vec [.agg [.str "Item A"]], .str "d"])
      "items[0].name" = some (.str "Item A") :=
  ⟨rfl, by decide, rfl, rfl⟩

/-- C5: for a duration field whose native unit is minutes, `"2h"` stores
120, the bare number 10 stores 10 (target's own unit), and `" 5m "` stores
5 after whitespace trimming. -/
theorem C5_duration_minutes_parsing (old : Val) :
    try_set_field (.dur .mins) old (.str "2h") = (true, .dur 120) ∧
    try_set_field (.dur .mins) old (.num 10) = (true, .dur 10) ∧
    try_set_field (.dur .mins) old (.str " 5m ") = (true, .dur 5) ∧
    set_field_enhanced (.agg [("timeout", .dur .mins)]) (.agg [.dur 7]) "timeout"
      (.str "2h") = (true, .agg [.dur 120]) :=
  ⟨rfl, rfl, rfl, rfl⟩

/-- C6: coercing a string into a registered enum field matches
case-insensitively against the registered canonical names in registry order,
falls back to parsing the string as an integer reinterpreted as the
underlying code, and otherwise fails leaving the field untouched; concretely
`"HIGH"` hits code 3 of `{1→"low", 2→"medium", 3→"high"}` and `"invalid"`
fails without touching the field. -/
theorem C6_enum_string_coercion :
    (∀ (m : EnumMap) (old : Val) (s : String),
      try_set_field (.enum m) old (.str s) =
        match specEnumParse m s with
        | some code => (true, .enum code)
        | none => (false, old)) ∧
    (∀ old : Val,
      try_set_field (.enum demoEnum) old (.str "HIGH") = (true, .enum 3) ∧
      try_set_field (.enum demoEnum) old (.str "invalid") = (false, old)) ∧
    set_field_enhanced (.agg [("level", .enum demoEnum)]) (.agg [.enum 1]) "level"
      (.str "invalid") = (false, .agg [.enum 1]) := by
  refine ⟨?_, fun old => ⟨rfl, rfl⟩, rfl⟩
  intro m old s
  simp only [try_set_field, enumFromString_eq_spec]

/-- C7 counterexample: `"9223372036854775808"` (2^63) starts with a digit
run, yet coercion into an integer field fails — `std::stoll` throws
`std::out_of_range` — so "fails only if no leading numeric characters exist"
is not true as stated. -/
theorem C7_counterexample_overflow :
    try_set_field .int (.int 0) (.str "9223372036854775808") = (false, .int 0) ∧
    "9223372036854775808".toList.takeWhile isCDigit ≠ [] :=
  ⟨rfl, by decide⟩

/-- C8: `get_all_paths` is the depth-first, declaration-order enumeration:
the spec's demo record yields exactly its 7 paths including
`address.street`, and a sequence-typed field contributes only its own path
(no per-index or per-element paths). -/
theorem C8_get_all_paths_enumeration :
    get_all_paths demoPersonTy =
      ["name", "age", "address", "address.street", "address.city", "address.zip",
        "active"] ∧
    (get_all_paths demoPersonTy).length = 7 ∧
    "address.street" ∈ get_all_paths demoPersonTy ∧
    (∀ (n : String) (et : Ty), get_all_paths (.agg [(n, .vec et)]) = [n]) ∧
    get_all_paths itemListTy = ["items", "description"] := by
  refine ⟨rfl, rfl, by decide, fun n et => rfl, rfl⟩

/-- C9 counterexample: bracket content `12abc` is not a numeral, yet the
parser does not drop it — `std::stoull` parses the leading run and an index
segment 12 is produced. -/
theorem C9_counterexample_numeric_prefix :
    parse_path_enhanced "a[12abc].b" = [.field "a", .index 12, .field "b"] ∧
    "12abc".toList.all isCDigit = false :=
  ⟨by decide, by decide⟩

/-- C10: an index at or past the sequence's length makes `get` empty and
`set` false with nothing touched, and a `set` through an index segment
always leaves the traversed sequence at its original length (it only
replaces the addressed existing element). -/
theorem C10_sequence_index_discipline (et : Ty) (xs : List Val) (i : Nat)
    (rest : List PathPart) (j : Json) :
    (xs.length ≤ i →
      get_array_element (.vec et) (.vec xs) i rest = none ∧
      set_array_element (.vec et) (.vec xs) i rest j = (false, .vec xs)) ∧
    (∃ ys, (set_array_element (.vec et) (.vec xs) i rest j).2 = .vec ys ∧
      ys.length = xs.length) := by
  constructor
  · intro h
    have hx : xs[i]? = none := List.getElem?_eq_none h
    exact ⟨by simp [get_array_element, hx], by simp [set_array_element, hx]⟩
  · rcases hx : xs[i]? with _ | x
    · exact ⟨xs, by simp [set_array_element, hx], rfl⟩
    · cases rest with
      | nil =>
        exact ⟨xs.set i (try_set_field et x j).2, by simp [set_array_element, hx], by simp⟩
      | cons q qs =>
        exact ⟨xs.set i (set_field_enhanced_recursive et x (q :: qs) j).2,
          by simp [set_array_element, hx], by simp⟩

/-- Witness for C10 at a concrete out-of-range input. -/
theorem C10_sequence_index_discipline_witness :
    get_array_element (.vec .int) (.vec [.int 1]) 5 [] = none ∧
    set_array_element (.vec .int) (.vec [.int 1]) 5 [] (.num 0) = (false, .vec [.int 1]) :=
  (C10_sequence_index_discipline .int [.int 1] 5 [] (.num 0)).1 (by norm_num)

/-- The index-dispatch resolution (`get_field_index` then `pfr::get` at that
index) agrees with first-match association lookup over the field list. -/
theorem get_field_index_lookup (fs : List (String × Ty)) (n : String) :
    (match get_field_index (fieldNames fs) n with
     | some idx => fs[idx]?
     | none => none) = fs.find? (fun p => p.1 = n) := by
  induction fs with
  | nil => rfl
  | cons p rest ih =>
    obtain ⟨m, ft⟩ := p
    by_cases h : m = n
    · subst h
      simp [get_field_index, fieldNames, List.find?]
    · simp only [fieldNames, List.map_cons, get_field_index] at ih ⊢
      rw [if_neg h, List.find?_cons_of_neg _ (by simp [h])]
      cases hg : get_field_index (List.map Prod.fst rest) n with
      | none => rw [hg] at ih; simpa using ih
      | some i => rw [hg] at ih; simpa using ih

/-- The source's `validate_path_recursive` computes exactly the spec-side
dot-only resolution. -/
theorem validate_eq_dotSim : ∀ (parts : List String) (t : Ty),
    validate_path_recursive t parts = dotSimValid t parts := by
  intro parts
  induction parts with
  | nil => intro t; cases t <;> rfl
  | cons n rest ih =>
    intro t
    cases t <;> try rfl
    rename_i fs
    simp only [validate_path_recursive, dotSimValid]
    have hl := get_field_index_lookup fs n
    cases hg : get_field_index (fieldNames fs) n with
    | none =>
      rw [hg] at hl
      simp only at hl
      rw [← hl]
    | some idx =>
      rw [hg] at hl
      simp only at hl
      rw [← hl]
      simp only
      cases hf : fs[idx]? with
      | none => simp [hf]
      | some pr =>
        obtain ⟨n', ft⟩ := pr
        simp [hf, ih]

/-- C4 amended: `is_valid_path` validates under the dot-only grammar — it is
true iff the dot-split segment list is nonempty and every segment, including
the last, resolves by first-match name lookup through nested aggregate
record types; index segments never arise (bracketed paths are rejected
unless a segment string literally matches a field name), and an empty path
is false. -/
theorem C4_amended_dot_only_validation (t : Ty) (path : String) :
    is_valid_path t path =
      (!(parse_path path).isEmpty && dotSimValid t (parse_path path)) := by
  unfold is_valid_path
  cases hp : (parse_path path).isEmpty <;> simp [hp, validate_eq_dotSim]

/-- `String.mk` and `String.toList` are inverse. -/
theorem toList_mk (cs : List Char) : (String.mk cs).toList = cs := rfl

/-- A digit is not C whitespace. -/
theorem isCDigit_not_space {c : Char} (h : isCDigit c = true) : isCSpace c = false := by
  by_contra hc
  rw [Bool.not_eq_false] at hc
  simp only [isCSpace, Bool.or_eq_true, decide_eq_true_eq] at hc
  rcases hc with ((((rfl | rfl) | rfl) | rfl) | rfl) | rfl <;> exact absurd h (by decide)

/-- A digit is neither `+` nor `-`. -/
theorem isCDigit_ne_sign {c : Char} (h : isCDigit c = true) : c ≠ '+' ∧ c ≠ '-' := by
  constructor <;> rintro rfl <;> exact absurd h (by decide)

/-- `takeWhile` of a run satisfying the predicate followed by a
non-satisfying head is exactly the run. -/
theorem takeWhile_all_append {p : Char → Bool} (ds rest : List Char)
    (hall : ds.all p = true) (hrest : ∀ c, rest.head? = some c → p c = false) :
    (ds ++ rest).takeWhile p = ds := by
  induction ds with
  | nil =>
    cases rest with
    | nil => rfl
    | cons c cs => simp [List.takeWhile_cons, hrest c rfl]
  | cons d ds ih =>
    simp only [List.all_cons, Bool.and_eq_true] at hall
    simp [List.takeWhile_cons, hall.1, ih hall.2]

/-- C7 amended: the string→integer coercion parses the leading digit run
after optional C whitespace and an optional sign (stopping at the first
non-digit, so `"123.45"` yields 123), succeeds with that run's value
whenever the run is nonempty and within the 64-bit parse range, and fails
when the run after whitespace/sign is empty. -/
theorem C7_amended_leading_run :
    (∀ old : Val, try_set_field .int old (.str "123.45") = (true, .int 123)) ∧
    (∀ (ds rest : List Char) (old : Val),
      ds ≠ [] → ds.all isCDigit = true →
      (∀ c, rest.head? = some c → isCDigit c = false) →
      (digitsToNat ds 0 : Int) ≤ 2 ^ 63 - 1 →
      try_set_field .int old (.str (String.mk (ds ++ rest))) =
        (true, .int (digitsToNat ds 0))) ∧
    (∀ (s : String) (old : Val),
      ((readSign (s.toList.dropWhile isCSpace)).2.takeWhile isCDigit).isEmpty = true →
      try_set_field .int old (.str s) = (false, old)) := by
  refine ⟨fun old => rfl, ?_, ?_⟩
  · intro ds rest old hne hall hrest hbound
    cases ds with
    | nil => exact absurd rfl hne
    | cons d ds' =>
      have hd : isCDigit d = true := by
        simp only [List.all_cons, Bool.and_eq_true] at hall
        exact hall.1
      have h2 : (d :: (ds' ++ rest)).dropWhile isCSpace = d :: (ds' ++ rest) := by
        simp [List.dropWhile_cons, isCDigit_not_space hd]
      have h3 : readSign (d :: (ds' ++ rest)) = (1, d :: (ds' ++ rest)) := by
        obtain ⟨hp, hm⟩ := isCDigit_ne_sign hd
        simp [readSign, hp, hm]
      have h4 : (d :: (ds' ++ rest)).takeWhile isCDigit = d :: ds' := by
        have h0 := takeWhile_all_append (p := isCDigit) (d :: ds') rest hall hrest
        simpa using h0
      have hcore : strtolCore (d :: (ds' ++ rest)) =
          some ((digitsToNat (d :: ds') 0 : Int), d :: ds') := by
        simp only [strtolCore, h2, h3, h4, List.isEmpty_cons, Bool.false_eq_true, if_false,
          one_mul]
      have hs : stoll (String.mk (d :: (ds' ++ rest))) =
          some ((digitsToNat (d :: ds') 0 : Int)) := by
        simp only [stoll, toList_mk, hcore]
        rw [if_neg]
        simp only [Bool.or_eq_true, decide_eq_true_eq, not_or, not_lt]
        constructor <;> omega
      simp only [List.cons_append]
      simp only [try_set_field, hs]
  · intro s old hempty
    rcases hrs : readSign (s.toList.dropWhile isCSpace) with ⟨sgn, cs2⟩
    rw [hrs] at hempty
    simp only at hempty
    rw [List.isEmpty_iff] at hempty
    have hcore : strtolCore s.toList = none := by
      simp only [strtolCore, hrs, hempty, List.isEmpty_nil, if_true]
    have hs : stoll s = none := by
      simp only [stoll, hcore]
    simp only [try_set_field, hs]

/-- Witness for the amended C7 at concrete inputs. -/
theorem C7_amended_leading_run_witness :
    try_set_field .int (.int 0) (.str (String.mk (['1', '2', '3'] ++ ['.', '4', '5']))) =
      (true, .int (digitsToNat ['1', '2', '3'] 0)) ∧
    try_set_field .int (.int 0) (.str "xyz") = (false, .int 0) :=
  ⟨C7_amended_leading_run.2.1 ['1', '2', '3'] ['.', '4', '5'] (.int 0) (by decide) (by decide)
      (by intro c hc; simp only [List.head?] at hc; injection hc with h; subst h; decide)
      (by decide),
    C7_amended_leading_run.2.2 "xyz" (.int 0) (by decide)⟩

/-- Pushing a character commutes with appending the rest of a character
list. -/
theorem push_mk_append (s : String) (c : Char) (cs : List Char) :
    s.push c ++ String.mk cs = s ++ String.mk (c :: cs) := by
  apply String.ext
  simp [String.push]

/-- A string holding at least one character is not empty. -/
theorem mk_cons_not_empty (c : Char) (l : List Char) :
    (String.mk (c :: l)).isEmpty = false := by
  rw [Bool.eq_false_iff]
  intro h
  rw [String.isEmpty_iff] at h
  exact absurd (congrArg String.data h) (by simp)

/-- The parser's per-character step only ever appends to the accumulated
segment list; the rest of the state does not depend on it. -/
theorem ppStep_parts (parts : List PathPart) (cf : String) (ib : Bool) (istr : String)
    (c : Char) :
    ppStep ⟨parts, cf, ib, istr⟩ c =
      ⟨parts ++ (ppStep ⟨[], cf, ib, istr⟩ c).parts,
        (ppStep ⟨[], cf, ib, istr⟩ c).currentField,
        (ppStep ⟨[], cf, ib, istr⟩ c).inBrackets,
        (ppStep ⟨[], cf, ib, istr⟩ c).indexStr⟩ := by
  unfold ppStep
  split_ifs <;> cases stoull istr <;> simp

/-- The parser's loop only ever appends to the accumulated segment list
(frame property over a whole character list). -/
theorem foldl_ppStep_frame :
    ∀ (cs : List Char) (parts : List PathPart) (cf : String) (ib : Bool) (istr : String),
    List.foldl ppStep ⟨parts, cf, ib, istr⟩ cs =
      ⟨parts ++ (List.foldl ppStep ⟨[], cf, ib, istr⟩ cs).parts,
        (List.foldl ppStep ⟨[], cf, ib, istr⟩ cs).currentField,
        (List.foldl ppStep ⟨[], cf, ib, istr⟩ cs).inBrackets,
        (List.foldl ppStep ⟨[], cf, ib, istr⟩ cs).indexStr⟩ := by
  intro cs
  induction cs with
  | nil => intro parts cf ib istr; simp
  | cons c cs ih =>
    intro parts cf ib istr
    simp only [List.foldl_cons]
    rw [ppStep_parts parts cf ib istr c]
    rcases hs1 : ppStep ⟨[], cf, ib, istr⟩ c with ⟨p1, f1, b1, i1⟩
    simp only
    rw [ih (parts ++ p1) f1 b1 i1, ih p1 f1 b1 i1]
    simp [List.append_assoc]

/-- Scanning characters that are none of `[`, `]`, `.` outside brackets just
extends the pending field name. -/
theorem foldl_regular (cs : List Char) :
    ∀ (cf : String), (∀ c ∈ cs, c ≠ '[' ∧ c ≠ ']' ∧ c ≠ '.') →
    List.foldl ppStep ⟨[], cf, false, ""⟩ cs = ⟨[], cf ++ String.mk cs, false, ""⟩ := by
  induction cs with
  | nil =>
    intro cf _
    simp only [List.foldl_nil]
    congr 1
    apply String.ext
    simp
  | cons c cs ih =>
    intro cf h
    obtain ⟨h1, h2, h3⟩ := h c (List.mem_cons_self c cs)
    have hstep : ppStep ⟨[], cf, false, ""⟩ c = ⟨[], cf.push c, false, ""⟩ := by
      simp [ppStep, h1, h2, h3]
    rw [List.foldl_cons, hstep, ih (cf.push c) (fun d hd => h d (List.mem_cons_of_mem _ hd))]
    congr 1
    exact push_mk_append cf c cs

/-- Scanning characters that are neither `[` nor `]` inside brackets just
extends the index string (dots included). -/
theorem foldl_brackets (cs : List Char) :
    ∀ (parts : List PathPart) (istr : String), (∀ c ∈ cs, c ≠ '[' ∧ c ≠ ']') →
    List.foldl ppStep ⟨parts, "", true, istr⟩ cs = ⟨parts, "", true, istr ++ String.mk cs⟩ := by
  induction cs with
  | nil =>
    intro parts istr _
    simp only [List.foldl_nil]
    congr 1
    apply String.ext
    simp
  | cons c cs ih =>
    intro parts istr h
    obtain ⟨h1, h2⟩ := h c (List.mem_cons_self c cs)
    have hstep : ppStep ⟨parts, "", true, istr⟩ c = ⟨parts, "", true, istr.push c⟩ := by
      by_cases hdot : c = '.' <;> simp [ppStep, h1, h2, hdot]
    rw [List.foldl_cons, hstep, ih parts (istr.push c) (fun d hd => h d (List.mem_cons_of_mem _ hd))]
    congr 1
    exact push_mk_append istr c cs

/-- The `[` step flushes the pending field name and enters bracket mode. -/
theorem ppStep_open (cf : String) (h : cf ≠ "") :
    ppStep ⟨[], cf, false, ""⟩ '[' = ⟨[.field cf], "", true, ""⟩ := by
  simp [ppStep, h]

/-- The `]` step appends an index segment exactly when `std::stoull` parses
the bracket text, and otherwise drops it, leaving bracket mode either way. -/
theorem ppStep_close (parts : List PathPart) (istr : String) :
    ppStep ⟨parts, "", true, istr⟩ ']' =
      ⟨parts ++
        (match stoull istr with
         | some i => [PathPart.index i]
         | none => []),
        "", false, ""⟩ := by
  by_cases hi : istr = ""
  · subst hi
    have h0 : stoull "" = none := rfl
    simp [ppStep, h0]
  · simp only [ppStep, reduceCtorEq, if_false]
    cases stoull istr <;> simp [hi]

/-- The final flush also only appends to an already-accumulated prefix. -/
theorem ppFinish_append (pre : List PathPart) (st : PPState) :
    ppFinish ⟨pre ++ st.parts, st.currentField, st.inBrackets, st.indexStr⟩ =
      pre ++ ppFinish st := by
  unfold ppFinish
  split_ifs <;> simp

/-- C9 amended: a bracket pair's content is dropped silently (no index
segment, preceding field-name segment retained, parsing continuing with the
remainder) exactly when `std::stoull` fails on it; content `stoull` can
parse (a numeric prefix after optional whitespace/sign, within the unsigned
64-bit range, a leading `-` wrapping modulo 2^64) instead produces an index
segment with that value, the trailing characters being ignored. -/
theorem C9_amended_bracket_content (nameCs contentCs : List Char) (rest : String)
    (hn : nameCs ≠ [])
    (hnc : ∀ c ∈ nameCs, c ≠ '[' ∧ c ≠ ']' ∧ c ≠ '.')
    (hcc : ∀ c ∈ contentCs, c ≠ '[' ∧ c ≠ ']') :
    parse_path_enhanced (String.mk (nameCs ++ '[' :: (contentCs ++ ']' :: rest.toList))) =
      .field (String.mk nameCs) ::
        ((match stoull (String.mk contentCs) with
          | some i => [PathPart.index i]
          | none => []) ++ parse_path_enhanced rest) := by
  cases nameCs with
  | nil => exact absurd rfl hn
  | cons c0 ncs =>
    have hname : (String.mk (c0 :: ncs)) ≠ "" := by
      intro h
      exact absurd (congrArg String.data h) (by simp)
    unfold parse_path_enhanced
    rw [show ((c0 :: ncs) ++ '[' :: (contentCs ++ ']' :: rest.toList)) =
      c0 :: (ncs ++ '[' :: (contentCs ++ ']' :: rest.toList)) from rfl]
    rw [mk_cons_not_empty]
    simp only [Bool.false_eq_true, if_false, toList_mk]
    rw [show (c0 :: (ncs ++ '[' :: (contentCs ++ ']' :: rest.toList))) =
      ((c0 :: ncs) ++ ('[' :: (contentCs ++ ']' :: rest.toList))) from rfl]
    rw [List.foldl_append, foldl_regular (c0 :: ncs) "" hnc, List.foldl_cons]
    have hcf : ("" : String) ++ String.mk (c0 :: ncs) = String.mk (c0 :: ncs) := by
      apply String.ext; simp
    rw [hcf, ppStep_open _ hname, List.foldl_append, foldl_brackets contentCs _ "" hcc,
      List.foldl_cons]
    have hcs : ("" : String) ++ String.mk contentCs = String.mk contentCs := by
      apply String.ext; simp
    rw [hcs, ppStep_close, foldl_ppStep_frame, ppFinish_append]
    by_cases hr : rest.isEmpty
    · rw [String.isEmpty_iff] at hr
      subst hr
      simp [ppFinish, show ("" : String).isEmpty = true from rfl]
    · rw [Bool.not_eq_true] at hr
      rw [hr]
      simp only [Bool.false_eq_true, if_false]
      simp

/-- Witness for the amended C9 at concrete inputs: unparseable content is
dropped, a numeric prefix yields its index. -/
theorem C9_amended_bracket_content_witness :
    parse_path_enhanced (String.mk (['i'] ++ '[' :: (['a', 'b'] ++ ']' :: "b".toList))) =
      .field (String.mk ['i']) ::
        ((match stoull (String.mk ['a', 'b']) with
          | some i => [PathPart.index i]
          | none => []) ++ parse_path_enhanced "b") ∧
    parse_path_enhanced (String.mk (['i'] ++ '[' :: (['4', 'x'] ++ ']' :: "b".toList))) =
      .field (String.mk ['i']) ::
        ((match stoull (String.mk ['4', 'x']) with
          | some i => [PathPart.index i]
          | none => []) ++ parse_path_enhanced "b") :=
  ⟨C9_amended_bracket_content ['i'] ['a', 'b'] "b" (by decide) (by decide) (by decide),
    C9_amended_bracket_content ['i'] ['4', 'x'] "b" (by decide) (by decide) (by decide)⟩

end Reflect
